import Mathlib

/-!
Formal model of the Polymarket exchange adapter (package `polymarket`):
the market-catalog loader (`loadMarketsFromEnv`, `decodeMarketsJSON`),
the in-memory order ledger (`SubmitOrder`, `QueryOpenOrders`,
`CancelOrders`) and the dry-run submission gate, together with a trace
semantics over sequences of adapter calls.

Go maps are modelled as association lists with Go's assignment
semantics (replace the existing key, otherwise add).  The `uint64`
order-id counter is modelled as a `Nat` reduced modulo `2 ^ 64` at each
increment.  Timestamps are abstract `Nat` values supplied per call.
JSON payloads are modelled as parsed syntax trees; a payload that is
not syntactically valid JSON is modelled as `none`.
-/

namespace Polymarket

/-! ### Association-list maps with Go map semantics -/

/-- Lookup in an association list (Go `m[k]` with `ok` flag). -/
def lookupKey {κ α : Type} [DecidableEq κ] : List (κ × α) → κ → Option α
  | [], _ => none
  | (k', v) :: rest, k => if k' = k then some v else lookupKey rest k

/-- Insertion with Go map assignment semantics: replace the entry with
this key when present, otherwise append a new entry. -/
def insertKey {κ α : Type} [DecidableEq κ] : List (κ × α) → κ → α → List (κ × α)
  | [], k, v => [(k, v)]
  | (k', v') :: rest, k, v =>
    if k' = k then (k, v) :: rest else (k', v') :: insertKey rest k v

/-- Update the entry at a key in place when present; no-op otherwise
(Go `if existing, ok := m[k]; ok` followed by mutation). -/
def updateKey {κ α : Type} [DecidableEq κ] (f : α → α) : List (κ × α) → κ → List (κ × α)
  | [], _ => []
  | (k', v') :: rest, k =>
    if k' = k then (k', f v') :: rest else (k', v') :: updateKey f rest k

/-! ### JSON values -/

/-- Parsed JSON syntax tree (the output of Go `encoding/json` syntax
analysis).  Object fields keep their textual order. -/
inductive Json where
  | null : Json
  | bool (b : Bool) : Json
  | num (n : Int) : Json
  | str (s : String) : Json
  | arr (elems : List Json) : Json
  | obj (fields : List (String × Json)) : Json

/-- A JSON payload as handed to `json.Unmarshal`: `none` models bytes
that are not syntactically valid JSON (every unmarshal attempt fails),
`some j` models bytes parsing to the value `j`. -/
abbrev JsonDoc := Option Json

/-! ### Markets -/

/-- Modelled from the spec: `types.Market` (its source is not in this
snapshot).  A tradable instrument definition: unique symbol, optional
venue-local symbol, base/quote currency labels, decimal precision
counts for price/quantity/quote amount, tick size, step size, minimum
notional, minimum quantity, plus the venue identity field stamped by
`QueryMarkets`.  Fixed-point amounts are integers scaled by 10^8. -/
structure Market where
  exchange : String := ""
  symbol : String := ""
  localSymbol : String := ""
  baseCurrency : String := ""
  quoteCurrency : String := ""
  pricePrecision : Int := 0
  volumePrecision : Int := 0
  quotePrecision : Int := 0
  tickSize : Int := 0
  stepSize : Int := 0
  minNotional : Int := 0
  minQuantity : Int := 0
  deriving DecidableEq, Repr

/-- Modelled from the spec: `types.MarketMap`, a mapping from symbol to
`Market`. -/
abbrev MarketMap := List (String × Market)

/-- Set one struct field of a `Market` from a JSON object entry, with
Go `encoding/json` semantics: unknown keys are ignored, `null` leaves
the field untouched, a type mismatch fails the whole unmarshal. -/
def setMarketField (m : Market) (key : String) (v : Json) : Option Market :=
  if key = "exchange" then
    match v with
    | Json.str s => some { m with exchange := s }
    | Json.null => some m
    | _ => none
  else if key = "symbol" then
    match v with
    | Json.str s => some { m with symbol := s }
    | Json.null => some m
    | _ => none
  else if key = "localSymbol" then
    match v with
    | Json.str s => some { m with localSymbol := s }
    | Json.null => some m
    | _ => none
  else if key = "baseCurrency" then
    match v with
    | Json.str s => some { m with baseCurrency := s }
    | Json.null => some m
    | _ => none
  else if key = "quoteCurrency" then
    match v with
    | Json.str s => some { m with quoteCurrency := s }
    | Json.null => some m
    | _ => none
  else if key = "pricePrecision" then
    match v with
    | Json.num n => some { m with pricePrecision := n }
    | Json.null => some m
    | _ => none
  else if key = "volumePrecision" then
    match v with
    | Json.num n => some { m with volumePrecision := n }
    | Json.null => some m
    | _ => none
  else if key = "quotePrecision" then
    match v with
    | Json.num n => some { m with quotePrecision := n }
    | Json.null => some m
    | _ => none
  else if key = "tickSize" then
    match v with
    | Json.num n => some { m with tickSize := n * 100000000 }
    | Json.null => some m
    | _ => none
  else if key = "stepSize" then
    match v with
    | Json.num n => some { m with stepSize := n * 100000000 }
    | Json.null => some m
    | _ => none
  else if key = "minNotional" then
    match v with
    | Json.num n => some { m with minNotional := n * 100000000 }
    | Json.null => some m
    | _ => none
  else if key = "minQuantity" then
    match v with
    | Json.num n => some { m with minQuantity := n * 100000000 }
    | Json.null => some m
    | _ => none
  else
    some m

/-- Fold the fields of a JSON object into a `Market`, failing on the
first type mismatch. -/
def unmarshalMarketFields : List (String × Json) → Market → Option Market
  | [], m => some m
  | (k, v) :: rest, m =>
    match setMarketField m k v with
    | some m' => unmarshalMarketFields rest m'
    | none => none

/-- Unmarshal one JSON value into a `Market` (Go decodes a struct from
an object, accepts `null` as a no-op, and rejects anything else). -/
def unmarshalMarket (j : Json) : Option Market :=
  match j with
  | Json.obj fields => unmarshalMarketFields fields {}
  | Json.null => some {}
  | _ => none

/-- Unmarshal the values of a JSON object into a `MarketMap`, keyed by
the object keys (duplicate keys follow Go map assignment: last wins). -/
def unmarshalMarketMapFields : List (String × Json) → MarketMap → Option MarketMap
  | [], acc => some acc
  | (k, v) :: rest, acc =>
    match unmarshalMarket v with
    | some m => unmarshalMarketMapFields rest (insertKey acc k m)
    | none => none

/-- Unmarshal a JSON value as `types.MarketMap` (shape 1: a
symbol-keyed mapping).  Go accepts an object or `null` here and rejects
every other value. -/
def unmarshalMarketMap (j : Json) : Option MarketMap :=
  match j with
  | Json.obj fields => unmarshalMarketMapFields fields []
  | Json.null => some []
  | _ => none

/-- Unmarshal the elements of a JSON array into `Market` records. -/
def unmarshalMarketList : List Json → Option (List Market)
  | [] => some []
  | j :: rest =>
    match unmarshalMarket j with
    | some m =>
      match unmarshalMarketList rest with
      | some ms => some (m :: ms)
      | none => none
    | none => none

/-- Unmarshal a JSON value as `[]types.Market` (shape 2: an array of
Market records).  Go accepts an array or `null` and rejects the rest. -/
def unmarshalMarketArr (j : Json) : Option (List Market) :=
  match j with
  | Json.arr elems => unmarshalMarketList elems
  | Json.null => some []
  | _ => none

/-! ### Error kinds and configuration keys -/

/-- Configuration key POLYMARKET_MARKETS_FILE. -/
def envMarketsFile : String := "POLYMARKET_MARKETS_FILE"

/-- Configuration key POLYMARKET_MARKETS_JSON. -/
def envMarketsJSON : String := "POLYMARKET_MARKETS_JSON"

/-- Configuration key POLYMARKET_DRY_RUN. -/
def envDryRun : String := "POLYMARKET_DRY_RUN"

/-- Message of the decode failure wrapping a JSON unmarshal error
("polymarket: decode markets json failed"). -/
def msgDecodeFailed : String := "polymarket: decode markets json failed"

/-- Message of the empty-symbol decode failure on the array path
("polymarket: market symbol is empty in json"). -/
def msgEmptySymbol : String := "polymarket: market symbol is empty in json"

/-- Errors returned by the adapter.  Each constructor records the
structured content of the corresponding Go `fmt.Errorf` message. -/
inductive ExchangeError where
  /-- Reading the catalog file failed: wraps the underlying cause and
  names the configuration key (Go: "polymarket: read <key> failed: <cause>"). -/
  | ioError (envKey : String) (cause : String) : ExchangeError
  /-- Catalog JSON decoding failed. -/
  | decodeError (msg : String) : ExchangeError
  /-- Live trading is not implemented: names the configuration flag to
  set (Go: "polymarket: real trading is not implemented yet; set
  <key>=true to use dry-run"). -/
  | liveTradingUnsupported (envKey : String) : ExchangeError
  deriving DecidableEq, Repr

/-! ### Catalog decoding (`decodeMarketsJSON`) -/

/-- Build the symbol-keyed map from decoded array records, failing on
the first record with an empty symbol. -/
def buildBySymbol : List Market → MarketMap → Except ExchangeError MarketMap
  | [], acc => Except.ok acc
  | m :: rest, acc =>
    if m.symbol = "" then Except.error (ExchangeError.decodeError msgEmptySymbol)
    else buildBySymbol rest (insertKey acc m.symbol m)

/-- Array-shape attempt of `decodeMarketsJSON`. -/
def decodeMarketsArr (j : Json) : Except ExchangeError MarketMap :=
  match unmarshalMarketArr j with
  | none => Except.error (ExchangeError.decodeError msgDecodeFailed)
  | some arr => buildBySymbol arr []

/-- Decode of a syntactically valid JSON value: try the symbol-keyed
mapping shape first and accept it when it unmarshals to a non-empty
map; otherwise fall back to the array-of-Market shape. -/
def decodeMarketsValue (j : Json) : Except ExchangeError MarketMap :=
  match unmarshalMarketMap j with
  | some mm => if mm.length > 0 then Except.ok mm else decodeMarketsArr j
  | none => decodeMarketsArr j

/-- Model of `decodeMarketsJSON`: a syntactically invalid payload fails
both unmarshal attempts and yields the decode error. -/
def decodeMarketsJSON (d : JsonDoc) : Except ExchangeError MarketMap :=
  match d with
  | none => Except.error (ExchangeError.decodeError msgDecodeFailed)
  | some j => decodeMarketsValue j

/-! ### Environment and catalog loading (`loadMarketsFromEnv`) -/

/-- Characters stripped by Go `strings.TrimSpace` (Unicode white
space; the common ASCII and Latin-1 cases are modelled). -/
def isSpaceChar (c : Char) : Bool :=
  c = ' ' || c = '\t' || c = '\n' || c = Char.ofNat 11 || c = Char.ofNat 12 ||
    c = '\r' || c = Char.ofNat 133 || c = Char.ofNat 160

/-- Model of Go `strings.TrimSpace`: strip leading and trailing white
space. -/
def trimString (s : String) : String :=
  String.mk (((s.data.dropWhile isSpaceChar).reverse.dropWhile isSpaceChar).reverse)

/-- Snapshot of the environment variables the adapter reads.
`marketsFile` and `dryRun` carry the raw variable value (empty string
when unset); `marketsJSON` is `none` when POLYMARKET_MARKETS_JSON is
unset or blank after trimming, and otherwise carries the parsed form of
its value. -/
structure Env where
  marketsFile : String := ""
  marketsJSON : Option JsonDoc := none
  dryRun : String := ""
  balanceUSDC : String := ""

/-- File system visible to `os.ReadFile`: a path maps to the parsed
form of the file's bytes, or to a read failure with its cause message;
an absent path fails with the usual open error. -/
structure FileSys where
  files : List (String × Except String JsonDoc) := []

/-- Model of `os.ReadFile` over a `FileSys`. -/
def FileSys.readFile (fs : FileSys) (path : String) : Except String JsonDoc :=
  match lookupKey fs.files path with
  | some r => r
  | none => Except.error ("open " ++ path ++ ": no such file or directory")

/-- Model of `loadMarketsFromEnv`: the file path takes precedence, the
inline JSON comes second, and with neither configured the loader
returns the empty result (Go `nil, nil`). -/
def loadMarketsFromEnv (env : Env) (fs : FileSys) : Except ExchangeError MarketMap :=
  if trimString env.marketsFile ≠ "" then
    match fs.readFile (trimString env.marketsFile) with
    | Except.error cause => Except.error (ExchangeError.ioError envMarketsFile cause)
    | Except.ok doc => decodeMarketsJSON doc
  else
    match env.marketsJSON with
    | some doc => decodeMarketsJSON doc
    | none => Except.ok []

/-! ### Default catalog and normalization -/

/-- Value of `types.ExchangePolymarket`, the venue identity stamped on
every catalog entry. -/
def exchangePolymarket : String := "polymarket"

/-- Model of `defaultExampleMarkets`: the built-in pair of example
instruments used when no catalog is configured.  Fixed-point literals
are scaled by 10^8 (0.0001 is 10000, 0.01 is 1000000, 1 is 100000000). -/
def defaultExampleMarkets : MarketMap :=
  [("PM_BTC_15M_UP_YES_USDC",
    { symbol := "PM_BTC_15M_UP_YES_USDC"
      localSymbol := "PM_BTC_15M_UP_YES_USDC"
      baseCurrency := "PM_BTC_15M_UP_YES"
      quoteCurrency := "USDC"
      pricePrecision := 4
      volumePrecision := 2
      quotePrecision := 2
      tickSize := 10000
      stepSize := 1000000
      minNotional := 100000000
      minQuantity := 100000000 }),
   ("PM_BTC_15M_UP_NO_USDC",
    { symbol := "PM_BTC_15M_UP_NO_USDC"
      localSymbol := "PM_BTC_15M_UP_NO_USDC"
      baseCurrency := "PM_BTC_15M_UP_NO"
      quoteCurrency := "USDC"
      pricePrecision := 4
      volumePrecision := 2
      quotePrecision := 2
      tickSize := 10000
      stepSize := 1000000
      minNotional := 100000000
      minQuantity := 100000000 })]

/-- Normalization loop of `QueryMarkets`: stamp the venue identity on
every entry and backfill a blank symbol from the map key. -/
def normalizeMarkets (mm : MarketMap) : MarketMap :=
  mm.map (fun p =>
    (p.1, { p.2 with
              exchange := exchangePolymarket
              symbol := if p.2.symbol = "" then p.1 else p.2.symbol }))

/-! ### Orders and the ledger state -/

/-- Order lifecycle states used by the adapter: `new` (working) and
`canceled` (terminal). -/
inductive OrderStatus where
  | new : OrderStatus
  | canceled : OrderStatus
  deriving DecidableEq, Repr

/-- Modelled from the spec: `types.SubmitOrder` (its source is not in
this snapshot) — a submission request: instrument symbol, side, type,
price, quantity, time-in-force and an optional free-form tag.  Price
and quantity are fixed-point integers scaled by 10^8. -/
structure SubmitOrderReq where
  symbol : String := ""
  side : String := ""
  orderType : String := ""
  price : Int := 0
  quantity : Int := 0
  timeInForce : String := ""
  tag : String := ""
  deriving DecidableEq, Repr

/-- Modelled from the spec: `types.Order` (its source is not in this
snapshot) — the embedded submission request plus the fields the adapter
populates. -/
structure Order where
  submitOrder : SubmitOrderReq := {}
  exchange : String := ""
  orderID : Nat := 0
  status : OrderStatus := OrderStatus.new
  executedQuantity : Int := 0
  isWorking : Bool := false
  creationTime : Nat := 0
  updateTime : Nat := 0
  originalStatus : String := ""
  isFutures : Bool := false
  isMargin : Bool := false
  isIsolated : Bool := false
  deriving DecidableEq, Repr

/-- Instrument symbol of an order (Go promotes the embedded
`SubmitOrder.Symbol` field). -/
def Order.symbol (o : Order) : String := o.submitOrder.symbol

/-- State of the `Exchange` adapter: credentials, the cached catalog
(`none` models the Go nil map before the first load) and the order
ledger.  `nextOrderID` is a `uint64`, kept below `2 ^ 64`. -/
structure Exchange where
  key : String
  secret : String
  passphrase : String
  markets : Option MarketMap
  nextOrderID : Nat
  orders : List (Nat × Order)
  deriving DecidableEq, Repr

/-- Model of `New`: fresh adapter with an empty ledger and the order-id
counter starting at 1. -/
def Exchange.New (key secret passphrase : String) : Exchange :=
  { key := key
    secret := secret
    passphrase := passphrase
    markets := none
    nextOrderID := 1
    orders := [] }

/-! ### Dry-run resolution -/

/-- Model of Go `strconv.ParseBool`: accepts exactly 1, t, T, TRUE,
true, True, 0, f, F, FALSE, false, False. -/
def parseBool (s : String) : Option Bool :=
  if s = "1" ∨ s = "t" ∨ s = "T" ∨ s = "TRUE" ∨ s = "true" ∨ s = "True" then some true
  else if s = "0" ∨ s = "f" ∨ s = "F" ∨ s = "FALSE" ∨ s = "false" ∨ s = "False" then some false
  else none

/-- Dry-run mode resolution in `SubmitOrder`: default true; an
environment value that trims to a parseable boolean overrides it. -/
def resolveDryRun (raw : String) : Bool :=
  let v := trimString raw
  if v ≠ "" then
    match parseBool v with
    | some b => b
    | none => true
  else true

/-! ### Adapter operations -/

/-- Model of `QueryMarkets` on a cache miss: load from the
environment, substitute the built-in default when empty, normalize and
cache. -/
def queryMarketsLoad (env : Env) (fs : FileSys) (e : Exchange) :
    Except ExchangeError MarketMap × Exchange :=
  match loadMarketsFromEnv env fs with
  | Except.error err => (Except.error err, e)
  | Except.ok ms =>
    let ms' := if ms.length = 0 then defaultExampleMarkets else ms
    let ms'' := normalizeMarkets ms'
    (Except.ok ms'', { e with markets := some ms'' })

/-- Model of `QueryMarkets`: return the cached catalog when it is
non-nil and non-empty, otherwise build and cache it. -/
def QueryMarkets (env : Env) (fs : FileSys) (e : Exchange) :
    Except ExchangeError MarketMap × Exchange :=
  match e.markets with
  | some m => if m.length > 0 then (Except.ok m, e) else queryMarketsLoad env fs e
  | none => queryMarketsLoad env fs e

/-- Model of `SubmitOrder`: resolve dry-run mode from the environment;
live mode fails without touching the ledger; dry-run allocates the
next identifier (post-increment modulo `2 ^ 64`), stores the created
order and returns it. -/
def SubmitOrder (env : Env) (now : Nat) (e : Exchange) (order : SubmitOrderReq) :
    Except ExchangeError Order × Exchange :=
  let dryRun := resolveDryRun env.dryRun
  if !dryRun then
    (Except.error (ExchangeError.liveTradingUnsupported envDryRun), e)
  else
    let oid := e.nextOrderID
    let created : Order :=
      { submitOrder := order
        exchange := exchangePolymarket
        orderID := oid
        status := OrderStatus.new
        executedQuantity := 0
        isWorking := true
        creationTime := now
        updateTime := now
        originalStatus := "NEW"
        isFutures := false
        isMargin := false
        isIsolated := false }
    (Except.ok created,
     { e with
         nextOrderID := (e.nextOrderID + 1) % 2 ^ 64
         orders := insertKey e.orders oid created })

/-- Model of `QueryOpenOrders`: every stored order whose working flag
is set and, when the filter is non-empty, whose symbol equals it. -/
def QueryOpenOrders (e : Exchange) (symbol : String) : List Order :=
  (e.orders.filter
    (fun p => p.2.isWorking && (symbol = "" || p.2.symbol = symbol))).map Prod.snd

/-- Cancellation of a single reference: transition the referenced
order, when present, to canceled/not-working with the update time
stamped; unknown identifiers are ignored. -/
def cancelOne (now : Nat) (orders : List (Nat × Order)) (ref : Order) :
    List (Nat × Order) :=
  updateKey
    (fun o =>
      { o with
          isWorking := false
          status := OrderStatus.canceled
          originalStatus := "CANCELED"
          updateTime := now })
    orders ref.orderID

/-- Model of `CancelOrders`: best-effort cancellation of every
referenced order; always succeeds. -/
def CancelOrders (now : Nat) (e : Exchange) (refs : List Order) :
    Except ExchangeError Unit × Exchange :=
  (Except.ok (), { e with orders := refs.foldl (cancelOne now) e.orders })

/-! ### Trace semantics -/

/-- One adapter operation. -/
inductive Op where
  | submit (req : SubmitOrderReq) : Op
  | queryOpen (symbol : String) : Op
  | cancel (refs : List Order) : Op
  | queryMarkets : Op

/-- One call into the adapter: the operation together with the
environment, file system and clock at the moment of the call (the
environment may change between calls). -/
structure Call where
  env : Env := {}
  fs : FileSys := {}
  now : Nat := 0
  op : Op

/-- Observable result of one call. -/
inductive Outcome where
  | submitR (r : Except ExchangeError Order) : Outcome
  | openR (r : List Order) : Outcome
  | cancelR (r : Except ExchangeError Unit) : Outcome
  | marketsR (r : Except ExchangeError MarketMap) : Outcome

/-- Single step of the adapter. -/
def stepExchange (e : Exchange) (c : Call) : Outcome × Exchange :=
  match c.op with
  | Op.submit req =>
    let r := SubmitOrder c.env c.now e req
    (Outcome.submitR r.1, r.2)
  | Op.queryOpen sym => (Outcome.openR (QueryOpenOrders e sym), e)
  | Op.cancel refs =>
    let r := CancelOrders c.now e refs
    (Outcome.cancelR r.1, r.2)
  | Op.queryMarkets =>
    let r := QueryMarkets c.env c.fs e
    (Outcome.marketsR r.1, r.2)

/-- Run a sequence of calls from a state, collecting the outcomes. -/
def runCalls (e : Exchange) : List Call → List Outcome × Exchange
  | [] => ([], e)
  | c :: cs =>
    let s := stepExchange e c
    let r := runCalls s.2 cs
    (s.1 :: r.1, r.2)

/-- Identifiers returned by the successful submissions of a trace, in
order. -/
def submittedIDs (outs : List Outcome) : List Nat :=
  outs.filterMap (fun out =>
    match out with
    | Outcome.submitR (Except.ok o) => some o.orderID
    | _ => none)

/-- Number of calls of a trace that are submissions made in dry-run
mode (exactly the submissions that succeed). -/
def numDrySubmits (cs : List Call) : Nat :=
  cs.countP (fun c =>
    match c.op with
    | Op.submit _ => resolveDryRun c.env.dryRun
    | _ => false)

/-! ### Ledger well-formedness -/

/-- Well-formedness of the ledger: every stored order carries its own
key as identifier, and keys are pairwise distinct.  This holds in every
reachable state. -/
def WF (e : Exchange) : Prop :=
  (∀ p ∈ e.orders, (p.2).orderID = p.1) ∧ (e.orders.map Prod.fst).Nodup

/-! ### Association-list lemmas -/

theorem lookupKey_insertKey {κ α : Type} [DecidableEq κ] (l : List (κ × α)) (k k' : κ) (v : α) :
    lookupKey (insertKey l k v) k' = if k = k' then some v else lookupKey l k' := by
  induction l with
  | nil => simp [insertKey, lookupKey]
  | cons p rest ih =>
    obtain ⟨k₀, v₀⟩ := p
    by_cases h : k₀ = k
    · subst h
      simp only [insertKey, if_pos rfl, lookupKey]
      by_cases h' : k₀ = k'
      · subst h'; simp [lookupKey]
      · simp [lookupKey, h']
    · simp only [insertKey, if_neg h, lookupKey]
      by_cases h' : k₀ = k'
      · subst h'
        have : ¬ k = k₀ := fun hc => h hc.symm
        simp [this]
      · simp [h', ih]

theorem mem_insertKey {κ α : Type} [DecidableEq κ] {l : List (κ × α)} {k : κ} {v : α}
    {p : κ × α} : p ∈ insertKey l k v → p = (k, v) ∨ p ∈ l := by
  induction l with
  | nil => intro h; simpa [insertKey] using h
  | cons q rest ih =>
    obtain ⟨k₀, v₀⟩ := q
    intro h
    by_cases hk : k₀ = k
    · subst hk
      simp only [insertKey, eq_self_iff_true, if_true, List.mem_cons] at h
      rcases h with h | h
      · exact Or.inl h
      · exact Or.inr (List.mem_cons_of_mem _ h)
    · simp only [insertKey, if_neg hk, List.mem_cons] at h
      rcases h with h | h
      · exact Or.inr (h ▸ List.mem_cons_self _ _)
      · rcases ih h with h' | h'
        · exact Or.inl h'
        · exact Or.inr (List.mem_cons_of_mem _ h')

theorem keys_insertKey_nodup {κ α : Type} [DecidableEq κ] (l : List (κ × α)) (k : κ) (v : α) :
    (l.map Prod.fst).Nodup → ((insertKey l k v).map Prod.fst).Nodup := by
  induction l with
  | nil => intro h; simp [insertKey]
  | cons p rest ih =>
    obtain ⟨k₀, v₀⟩ := p
    intro h
    simp only [List.map_cons, List.nodup_cons, List.mem_map] at h
    by_cases hk : k₀ = k
    · subst hk
      simp only [insertKey, eq_self_iff_true, if_true, List.map_cons, List.nodup_cons, List.mem_map]
      exact h
    · simp only [insertKey, if_neg hk, List.map_cons, List.nodup_cons, List.mem_map]
      refine ⟨?_, ih h.2⟩
      rintro ⟨p, hp, hfst⟩
      rcases mem_insertKey hp with h' | h'
      · exact hk (by rw [h'] at hfst; exact hfst.symm ▸ rfl)
      · exact h.1 ⟨p, h', hfst⟩

theorem keys_updateKey {κ α : Type} [DecidableEq κ] (f : α → α) (l : List (κ × α)) (k : κ) :
    (updateKey f l k).map Prod.fst = l.map Prod.fst := by
  induction l with
  | nil => simp [updateKey]
  | cons p rest ih =>
    obtain ⟨k₀, v₀⟩ := p
    by_cases hk : k₀ = k
    · simp [updateKey, hk]
    · simp [updateKey, hk, ih]

theorem lookupKey_updateKey {κ α : Type} [DecidableEq κ] (f : α → α) (l : List (κ × α))
    (k k' : κ) :
    lookupKey (updateKey f l k) k' =
      if k = k' then (lookupKey l k).map f else lookupKey l k' := by
  induction l with
  | nil => simp [updateKey, lookupKey]
  | cons p rest ih =>
    obtain ⟨k₀, v₀⟩ := p
    by_cases hk : k₀ = k
    · subst hk
      simp only [updateKey, if_pos rfl, lookupKey]
      by_cases h' : k₀ = k'
      · subst h'; simp [lookupKey]
      · simp [lookupKey, h']
    · simp only [updateKey, if_neg hk, lookupKey]
      by_cases h' : k₀ = k'
      · subst h'
        have : ¬ k = k₀ := fun hc => hk hc.symm
        simp [this]
      · simp [h', ih]

theorem updateKey_of_lookupKey_none {κ α : Type} [DecidableEq κ] (f : α → α)
    {l : List (κ × α)} {k : κ} : lookupKey l k = none → updateKey f l k = l := by
  induction l with
  | nil => intro h; simp [updateKey]
  | cons p rest ih =>
    obtain ⟨k₀, v₀⟩ := p
    intro h
    by_cases hk : k₀ = k
    · simp [lookupKey, hk] at h
    · simp only [lookupKey, if_neg hk] at h
      simp [updateKey, hk, ih h]

theorem mem_updateKey {κ α : Type} [DecidableEq κ] {f : α → α} {l : List (κ × α)} {k : κ}
    {p : κ × α} : p ∈ updateKey f l k → p ∈ l ∨ ∃ q ∈ l, p = (q.1, f q.2) := by
  induction l with
  | nil => intro h; simp [updateKey] at h
  | cons q rest ih =>
    obtain ⟨k₀, v₀⟩ := q
    intro h
    by_cases hk : k₀ = k
    · simp only [updateKey, if_pos hk, List.mem_cons] at h
      rcases h with h | h
      · exact Or.inr ⟨(k₀, v₀), List.mem_cons_self _ _, h⟩
      · exact Or.inl (List.mem_cons_of_mem _ h)
    · simp only [updateKey, if_neg hk, List.mem_cons] at h
      rcases h with h | h
      · exact Or.inl (h ▸ List.mem_cons_self _ _)
      · rcases ih h with h' | h'
        · exact Or.inl (List.mem_cons_of_mem _ h')
        · obtain ⟨q, hq, hpq⟩ := h'
          exact Or.inr ⟨q, List.mem_cons_of_mem _ hq, hpq⟩

theorem lookupKey_of_mem_nodup {κ α : Type} [DecidableEq κ] {l : List (κ × α)} {p : κ × α} :
    (l.map Prod.fst).Nodup → p ∈ l → lookupKey l p.1 = some p.2 := by
  induction l with
  | nil => intro _ hp; cases hp
  | cons q rest ih =>
    obtain ⟨k₀, v₀⟩ := q
    intro hnd hp
    simp only [List.map_cons, List.nodup_cons, List.mem_map] at hnd
    rcases List.mem_cons.1 hp with h | h
    · subst h; simp [lookupKey]
    · have hne : ¬ k₀ = p.1 := by
        intro hc
        exact hnd.1 ⟨p, h, hc.symm⟩
      simp [lookupKey, hne, ih hnd.2 h]

theorem lookupKey_insertKey_isSome {κ α : Type} [DecidableEq κ] (l : List (κ × α))
    (k k' : κ) (v : α) (h : (lookupKey l k').isSome) :
    (lookupKey (insertKey l k v) k').isSome := by
  rw [lookupKey_insertKey]
  by_cases hk : k = k'
  · simp [hk]
  · simpa [hk] using h

/-! ### State-preservation lemmas -/

theorem queryMarketsLoad_ledger (env : Env) (fs : FileSys) (e : Exchange) :
    (queryMarketsLoad env fs e).2.nextOrderID = e.nextOrderID ∧
    (queryMarketsLoad env fs e).2.orders = e.orders := by
  unfold queryMarketsLoad
  cases loadMarketsFromEnv env fs <;> simp

theorem queryMarkets_ledger (env : Env) (fs : FileSys) (e : Exchange) :
    (QueryMarkets env fs e).2.nextOrderID = e.nextOrderID ∧
    (QueryMarkets env fs e).2.orders = e.orders := by
  unfold QueryMarkets
  cases hm : e.markets with
  | none => exact queryMarketsLoad_ledger env fs e
  | some m =>
    by_cases hl : m.length > 0
    · simp [hl]
    · simpa [hl] using queryMarketsLoad_ledger env fs e

theorem submitOrder_markets (env : Env) (now : Nat) (e : Exchange) (req : SubmitOrderReq) :
    (SubmitOrder env now e req).2.markets = e.markets := by
  unfold SubmitOrder
  cases resolveDryRun env.dryRun <;> simp

theorem cancelOrders_markets (now : Nat) (e : Exchange) (refs : List Order) :
    (CancelOrders now e refs).2.markets = e.markets := rfl

theorem cancelOrders_nextOrderID (now : Nat) (e : Exchange) (refs : List Order) :
    (CancelOrders now e refs).2.nextOrderID = e.nextOrderID := rfl

/-! ### Well-formedness lemmas -/

theorem WF_New (k s p : String) : WF (Exchange.New k s p) := by
  constructor
  · intro q hq; cases hq
  · simp [Exchange.New]

theorem WF_submit (env : Env) (now : Nat) (e : Exchange) (req : SubmitOrderReq)
    (hwf : WF e) : WF (SubmitOrder env now e req).2 := by
  unfold SubmitOrder
  cases hdr : resolveDryRun env.dryRun with
  | false => simpa using hwf
  | true =>
    simp only [Bool.not_true, Bool.false_eq_true, if_false]
    constructor
    · intro p hp
      rcases mem_insertKey hp with h | h
      · rw [h]
      · exact hwf.1 p h
    · exact keys_insertKey_nodup _ _ _ hwf.2

theorem WF_cancelOne (now : Nat) (l : List (Nat × Order)) (ref : Order)
    (h1 : ∀ p ∈ l, (p.2).orderID = p.1) (h2 : (l.map Prod.fst).Nodup) :
    (∀ p ∈ cancelOne now l ref, (p.2).orderID = p.1) ∧
    ((cancelOne now l ref).map Prod.fst).Nodup := by
  constructor
  · intro p hp
    rcases mem_updateKey hp with h | h
    · exact h1 p h
    · obtain ⟨q, hq, hpq⟩ := h
      rw [hpq]
      exact h1 q hq
  · rw [cancelOne, keys_updateKey]
    exact h2

theorem WF_cancel (now : Nat) (e : Exchange) (refs : List Order) (hwf : WF e) :
    WF (CancelOrders now e refs).2 := by
  have hfold : ∀ (rs : List Order) (l : List (Nat × Order)),
      (∀ p ∈ l, (p.2).orderID = p.1) → (l.map Prod.fst).Nodup →
      (∀ p ∈ rs.foldl (cancelOne now) l, (p.2).orderID = p.1) ∧
      ((rs.foldl (cancelOne now) l).map Prod.fst).Nodup := by
    intro rs
    induction rs with
    | nil => intro l h1 h2; exact ⟨h1, h2⟩
    | cons r rest ih =>
      intro l h1 h2
      have h := WF_cancelOne now l r h1 h2
      exact ih _ h.1 h.2
  exact hfold refs e.orders hwf.1 hwf.2

theorem stepExchange_WF (e : Exchange) (c : Call) (hwf : WF e) : WF (stepExchange e c).2 := by
  cases hop : c.op with
  | submit req =>
    simp only [stepExchange, hop]
    exact WF_submit c.env c.now e req hwf
  | queryOpen sym =>
    simpa [stepExchange, hop] using hwf
  | cancel refs =>
    simp only [stepExchange, hop]
    exact WF_cancel c.now e refs hwf
  | queryMarkets =>
    simp only [stepExchange, hop]
    have horders := (queryMarkets_ledger c.env c.fs e).2
    constructor
    · intro p hp
      exact hwf.1 p (horders ▸ hp)
    · rw [horders]
      exact hwf.2

/-- Every state reachable from a fresh exchange is well-formed, which
justifies the `WF` hypotheses of the ledger theorems. -/
theorem runCalls_WF : ∀ (cs : List Call) (e : Exchange), WF e → WF (runCalls e cs).2 := by
  intro cs
  induction cs with
  | nil => intro e h; exact h
  | cons c rest ih =>
    intro e h
    simp only [runCalls]
    exact ih _ (stepExchange_WF e c h)

/-! ### Counting lemma for freshly inserted orders -/

theorem count_filter_insertKey (pred : Nat × Order → Bool) (c : Order) (k : Nat)
    (hc : c.orderID = k) (hp : pred (k, c) = true) :
    ∀ l : List (Nat × Order), (∀ p ∈ l, (p.2).orderID = p.1) → (l.map Prod.fst).Nodup →
      (((insertKey l k c).filter pred).map Prod.snd).count c = 1 := by
  intro l
  induction l with
  | nil =>
    intro _ _
    simp [insertKey, hp]
  | cons q rest ih =>
    obtain ⟨k₀, o⟩ := q
    intro h1 h2
    by_cases hk : k₀ = k
    · subst hk
      simp only [insertKey, eq_self_iff_true, if_true, List.filter_cons,
        hp, List.map_cons, List.count_cons]
      have hnotin : c ∉ (rest.filter pred).map Prod.snd := by
        intro hmem
        obtain ⟨p, hpf, hps⟩ := List.mem_map.1 hmem
        have hpr : p ∈ rest := (List.mem_filter.1 hpf).1
        have hpid : (p.2).orderID = p.1 := h1 p (List.mem_cons_of_mem _ hpr)
        have hk1 : p.1 = k₀ := by rw [← hpid, hps, hc]
        simp only [List.map_cons, List.nodup_cons, List.mem_map] at h2
        exact h2.1 ⟨p, hpr, hk1⟩
      rw [List.count_eq_zero.2 hnotin]
      simp
    · have hoc : o ≠ c := by
        intro hoc
        have : o.orderID = k₀ := h1 (k₀, o) (List.mem_cons_self _ _)
        rw [hoc, hc] at this
        exact hk this.symm
      have h1' : ∀ p ∈ rest, (p.2).orderID = p.1 :=
        fun p hp' => h1 p (List.mem_cons_of_mem _ hp')
      have h2' : (rest.map Prod.fst).Nodup := by
        simp only [List.map_cons, List.nodup_cons] at h2
        exact h2.2
      simp only [insertKey, if_neg hk, List.filter_cons]
      by_cases hpo : pred (k₀, o) = true
      · simp only [hpo, if_true, List.map_cons, List.count_cons, ih h1' h2']
        simp [hoc]
      · simp only [hpo, if_false, Bool.false_eq_true]
        exact ih h1' h2'

/-- C1: for every `SubmitOrder` call made in dry-run mode on a
well-formed ledger, the call succeeds and the returned order has
status "new", working flag true, executed quantity zero, and appears
exactly once in the open-order query with no symbol filter. -/
theorem submitOrder_dryRun_creates_open_order (env : Env) (now : Nat) (e : Exchange)
    (req : SubmitOrderReq) (hwf : WF e) (hdry : resolveDryRun env.dryRun = true) :
    ∃ o, (SubmitOrder env now e req).1 = Except.ok o ∧
      o.status = OrderStatus.new ∧ o.isWorking = true ∧ o.executedQuantity = 0 ∧
      ((QueryOpenOrders (SubmitOrder env now e req).2 "").count o = 1) := by
  unfold SubmitOrder
  rw [hdry]
  simp only [Bool.not_true, Bool.false_eq_true, if_false]
  refine ⟨_, rfl, rfl, rfl, rfl, ?_⟩
  unfold QueryOpenOrders
  exact count_filter_insertKey _ _ e.nextOrderID rfl (by simp) e.orders hwf.1 hwf.2

/-- Witness for C1 at a concrete call: a submission on a fresh
exchange with an unset dry-run variable. -/
theorem submitOrder_dryRun_creates_open_order_witness :
    WF (Exchange.New "k" "s" "p") ∧ resolveDryRun (Env.dryRun {}) = true ∧
    ∃ o, (SubmitOrder {} 7 (Exchange.New "k" "s" "p") { symbol := "PM_BTC_15M_UP_YES_USDC" }).1 =
        Except.ok o ∧
      o.status = OrderStatus.new ∧ o.isWorking = true ∧ o.executedQuantity = 0 ∧
      ((QueryOpenOrders
          (SubmitOrder {} 7 (Exchange.New "k" "s" "p")
            { symbol := "PM_BTC_15M_UP_YES_USDC" }).2 "").count o = 1) :=
  ⟨WF_New "k" "s" "p", by decide,
   submitOrder_dryRun_creates_open_order {} 7 (Exchange.New "k" "s" "p")
     { symbol := "PM_BTC_15M_UP_YES_USDC" } (WF_New "k" "s" "p") (by decide)⟩

/-- C3: after `CancelOrders` with the identifier of an order stored in
a well-formed ledger, the order no longer appears in any open-order
query (with or without a symbol filter), its stored status is
"canceled" and its working flag is false. -/
theorem cancelOrders_cancels_submitted_order (now : Nat) (e : Exchange) (oid : Nat)
    (o ref : Order) (hwf : WF e) (hlook : lookupKey e.orders oid = some o)
    (href : ref.orderID = oid) :
    (∃ o', lookupKey (CancelOrders now e [ref]).2.orders oid = some o' ∧
       o'.status = OrderStatus.canceled ∧ o'.isWorking = false) ∧
    (∀ sym, ∀ q ∈ QueryOpenOrders (CancelOrders now e [ref]).2 sym, q.orderID ≠ oid) := by
  have horders : (CancelOrders now e [ref]).2.orders = cancelOne now e.orders ref := rfl
  have hwf' := WF_cancelOne now e.orders ref hwf.1 hwf.2
  have hlook' : lookupKey (cancelOne now e.orders ref) oid =
      some { o with
               isWorking := false
               status := OrderStatus.canceled
               originalStatus := "CANCELED"
               updateTime := now } := by
    rw [cancelOne, href, lookupKey_updateKey]
    simp [hlook]
  constructor
  · exact ⟨_, by rw [horders]; exact hlook', rfl, rfl⟩
  · intro sym q hq hqid
    unfold QueryOpenOrders at hq
    rw [horders] at hq
    obtain ⟨p, hpf, hps⟩ := List.mem_map.1 hq
    have hpmem : p ∈ cancelOne now e.orders ref := (List.mem_filter.1 hpf).1
    have hpred := (List.mem_filter.1 hpf).2
    have hwork : (p.2).isWorking = true := by
      simp only [Bool.and_eq_true] at hpred
      exact hpred.1
    have hpid : p.1 = oid := by
      rw [← hwf'.1 p hpmem, hps, hqid]
    have hlookp := lookupKey_of_mem_nodup hwf'.2 hpmem
    rw [hpid, hlook'] at hlookp
    have hval : { o with
                    isWorking := false
                    status := OrderStatus.canceled
                    originalStatus := "CANCELED"
                    updateTime := now } = p.2 := by
      injection hlookp
    rw [← hval] at hwork
    simp at hwork

/-- Witness for C3 at a concrete trace: submit one order on a fresh
exchange, then cancel identifier 1. -/
theorem cancelOrders_cancels_submitted_order_witness :
    (∃ o', lookupKey
        (CancelOrders 9 (SubmitOrder {} 3 (Exchange.New "" "" "") { symbol := "A" }).2
          [{ orderID := 1 }]).2.orders 1 = some o' ∧
       o'.status = OrderStatus.canceled ∧ o'.isWorking = false) ∧
    (∀ sym, ∀ q ∈ QueryOpenOrders
        (CancelOrders 9 (SubmitOrder {} 3 (Exchange.New "" "" "") { symbol := "A" }).2
          [{ orderID := 1 }]).2 sym, q.orderID ≠ 1) :=
  cancelOrders_cancels_submitted_order 9
    (SubmitOrder {} 3 (Exchange.New "" "" "") { symbol := "A" }).2 1
    { submitOrder := { symbol := "A" }
      exchange := "polymarket"
      orderID := 1
      status := OrderStatus.new
      executedQuantity := 0
      isWorking := true
      creationTime := 3
      updateTime := 3
      originalStatus := "NEW"
      isFutures := false
      isMargin := false
      isIsolated := false }
    { orderID := 1 } (by constructor <;> decide) (by decide) (by decide)

/-- C6: with the dry-run flag explicitly set to a false boolean value,
`SubmitOrder` fails with the unsupported-operation error naming the
POLYMARKET_DRY_RUN configuration flag, regardless of order contents;
with the flag unset or not parseable as a boolean, the resolved mode
defaults to dry-run. -/
theorem submitOrder_live_mode_rejected (env : Env) (now : Nat) (e : Exchange)
    (req : SubmitOrderReq) :
    (parseBool (trimString env.dryRun) = some false →
      (SubmitOrder env now e req).1 =
        Except.error (ExchangeError.liveTradingUnsupported envDryRun)) ∧
    ((trimString env.dryRun = "" ∨ parseBool (trimString env.dryRun) = none) →
      resolveDryRun env.dryRun = true) := by
  constructor
  · intro h
    have hne : trimString env.dryRun ≠ "" := by
      intro h0
      rw [h0] at h
      exact absurd h (by decide)
    have hdr : resolveDryRun env.dryRun = false := by
      unfold resolveDryRun
      simp [hne, h]
    unfold SubmitOrder
    rw [hdr]
    rfl
  · intro h
    unfold resolveDryRun
    rcases h with h | h
    · simp [h]
    · by_cases hne : trimString env.dryRun = ""
      · simp [hne]
      · simp [hne, h]

/-- Witness for C6: the value "false" is rejected with the error
naming the flag; the unparseable value "maybe" resolves to dry-run. -/
theorem submitOrder_live_mode_rejected_witness :
    (SubmitOrder { dryRun := "false" } 0 (Exchange.New "" "" "") {}).1 =
      Except.error (ExchangeError.liveTradingUnsupported envDryRun) ∧
    resolveDryRun (Env.dryRun { dryRun := "maybe" }) = true :=
  ⟨(submitOrder_live_mode_rejected { dryRun := "false" } 0 (Exchange.New "" "" "") {}).1
     (by decide),
   (submitOrder_live_mode_rejected { dryRun := "maybe" } 0 (Exchange.New "" "" "") {}).2
     (Or.inr (by decide))⟩

/-- Helper for C7: cancelling a batch of references that all miss the
ledger leaves the order map unchanged. -/
theorem foldl_cancelOne_id (now : Nat) :
    ∀ (refs : List Order) (l : List (Nat × Order)),
      (∀ r ∈ refs, lookupKey l r.orderID = none) →
      refs.foldl (cancelOne now) l = l := by
  intro refs
  induction refs with
  | nil => intro l _; rfl
  | cons r rest ih =>
    intro l h
    have h0 : cancelOne now l r = l :=
      updateKey_of_lookupKey_none _ (h r (List.mem_cons_self _ _))
    rw [List.foldl_cons, h0]
    exact ih l (fun r' hr' => h r' (List.mem_cons_of_mem _ hr'))

theorem lookupKey_updateKey_isSome {κ α : Type} [DecidableEq κ] (f : α → α)
    (l : List (κ × α)) (k k' : κ) :
    (lookupKey (updateKey f l k) k').isSome = (lookupKey l k').isSome := by
  rw [lookupKey_updateKey]
  by_cases hk : k = k'
  · subst hk
    cases h : lookupKey l k <;> simp [h]
  · simp [hk]

/-- Helper for C7: a cancellation batch acts exactly as the sub-batch
of references whose identifiers are present in the ledger. -/
theorem foldl_cancelOne_filter (now : Nat) : ∀ (refs : List Order) (l : List (Nat × Order)),
    refs.foldl (cancelOne now) l =
      (refs.filter (fun r => (lookupKey l r.orderID).isSome)).foldl (cancelOne now) l := by
  intro refs
  induction refs with
  | nil => intro l; rfl
  | cons r rest ih =>
    intro l
    cases hlk : lookupKey l r.orderID with
    | none =>
      have h0 : cancelOne now l r = l := updateKey_of_lookupKey_none _ hlk
      simp only [List.foldl_cons, List.filter_cons, hlk, Option.isSome_none,
        Bool.false_eq_true, if_false]
      rw [h0]
      exact ih l
    | some v =>
      simp only [List.foldl_cons, List.filter_cons, hlk, Option.isSome_some, if_true]
      rw [ih (cancelOne now l r)]
      congr 1
      apply List.filter_congr
      intro x _
      exact lookupKey_updateKey_isSome _ _ _ _

/-- C7: `CancelOrders` always returns success; references whose
identifiers are absent from the ledger are silently ignored — a batch
acts exactly as its sub-batch of known references, and a batch of only
unknown references leaves the ledger state (counter and every stored
order) unchanged. -/
theorem cancelOrders_unknown_ids_ignored (now : Nat) (e : Exchange) (refs : List Order) :
    (CancelOrders now e refs).1 = Except.ok () ∧
    (CancelOrders now e refs =
      CancelOrders now e (refs.filter (fun r => (lookupKey e.orders r.orderID).isSome))) ∧
    ((∀ r ∈ refs, lookupKey e.orders r.orderID = none) →
      CancelOrders now e refs = (Except.ok (), e)) := by
  refine ⟨rfl, ?_, ?_⟩
  · unfold CancelOrders
    rw [← foldl_cancelOne_filter now refs e.orders]
  · intro h
    unfold CancelOrders
    rw [foldl_cancelOne_id now refs e.orders h]

/-- Witness for C7: cancelling an unknown identifier on a fresh
exchange succeeds and changes nothing. -/
theorem cancelOrders_unknown_ids_ignored_witness :
    (CancelOrders 5 (Exchange.New "" "" "") [{ orderID := 42 }]).1 = Except.ok () ∧
    CancelOrders 5 (Exchange.New "" "" "") [{ orderID := 42 }] =
      (Except.ok (), Exchange.New "" "" "") :=
  ⟨(cancelOrders_unknown_ids_ignored 5 (Exchange.New "" "" "") [{ orderID := 42 }]).1,
   (cancelOrders_unknown_ids_ignored 5 (Exchange.New "" "" "") [{ orderID := 42 }]).2.2
     (by decide)⟩

/-- C9: when the file-path key is set (after trimming) the loader
reads that file — decoding its contents on success, and on failure
returning the io error wrapping the underlying cause and naming the
POLYMARKET_MARKETS_FILE key — while the inline JSON key is ignored;
with neither key set the loader returns the empty result. -/
theorem loadMarketsFromEnv_precedence (env : Env) (fs : FileSys) :
    (trimString env.marketsFile ≠ "" →
      (∀ doc, fs.readFile (trimString env.marketsFile) = Except.ok doc →
        loadMarketsFromEnv env fs = decodeMarketsJSON doc) ∧
      (∀ cause, fs.readFile (trimString env.marketsFile) = Except.error cause →
        loadMarketsFromEnv env fs =
          Except.error (ExchangeError.ioError envMarketsFile cause)) ∧
      (∀ js, loadMarketsFromEnv { env with marketsJSON := js } fs =
        loadMarketsFromEnv env fs)) ∧
    (trimString env.marketsFile = "" → env.marketsJSON = none →
      loadMarketsFromEnv env fs = Except.ok []) := by
  constructor
  · intro hne
    refine ⟨?_, ?_, ?_⟩
    · intro doc hdoc
      unfold loadMarketsFromEnv
      rw [if_pos hne, hdoc]
    · intro cause hcause
      unfold loadMarketsFromEnv
      rw [if_pos hne, hcause]
    · intro js
      unfold loadMarketsFromEnv
      rw [if_pos hne, if_pos hne]
  · intro h1 h2
    unfold loadMarketsFromEnv
    rw [if_neg (not_not_intro h1), h2]

/-- Witness for C9: a configured but missing file yields the io error
naming the key; an empty configuration yields the empty result. -/
theorem loadMarketsFromEnv_precedence_witness :
    loadMarketsFromEnv { marketsFile := "f" } {} =
      Except.error
        (ExchangeError.ioError envMarketsFile "open f: no such file or directory") ∧
    loadMarketsFromEnv {} {} = Except.ok [] :=
  ⟨((loadMarketsFromEnv_precedence { marketsFile := "f" } {}).1 (by decide)).2.1
     "open f: no such file or directory" rfl,
   (loadMarketsFromEnv_precedence {} {}).2 (by decide) rfl⟩

/-- C10: a `SubmitOrder` call rejected because dry-run is disabled
leaves the ledger state completely unchanged — the counter is not
incremented and no order is stored — and a subsequent dry-run
submission receives exactly the identifier that was current before the
failed call. -/
theorem submitOrder_live_failure_preserves_ledger (env env' : Env) (now now' : Nat)
    (e : Exchange) (req req' : SubmitOrderReq) (h : resolveDryRun env.dryRun = false) :
    (SubmitOrder env now e req).2 = e ∧
    (SubmitOrder env now e req).2.nextOrderID = e.nextOrderID ∧
    (SubmitOrder env now e req).2.orders = e.orders ∧
    (resolveDryRun env'.dryRun = true →
      ∃ o, (SubmitOrder env' now' (SubmitOrder env now e req).2 req').1 = Except.ok o ∧
        o.orderID = e.nextOrderID) := by
  have h2 : (SubmitOrder env now e req).2 = e := by
    unfold SubmitOrder
    rw [h]
    rfl
  refine ⟨h2, by rw [h2], by rw [h2], ?_⟩
  intro h'
  rw [h2]
  unfold SubmitOrder
  rw [h']
  exact ⟨_, rfl, rfl⟩

/-- Witness for C10: a rejected live submission on a fresh exchange
changes nothing and the next dry-run submission still gets id 1. -/
theorem submitOrder_live_failure_preserves_ledger_witness :
    (SubmitOrder { dryRun := "0" } 1 (Exchange.New "" "" "") {}).2 = Exchange.New "" "" "" ∧
    (SubmitOrder { dryRun := "0" } 1 (Exchange.New "" "" "") {}).2.nextOrderID = 1 ∧
    (SubmitOrder { dryRun := "0" } 1 (Exchange.New "" "" "") {}).2.orders = [] ∧
    ∃ o, (SubmitOrder {} 2 (SubmitOrder { dryRun := "0" } 1
        (Exchange.New "" "" "") {}).2 {}).1 = Except.ok o ∧ o.orderID = 1 := by
  have h := submitOrder_live_failure_preserves_ledger { dryRun := "0" } {} 1 2
    (Exchange.New "" "" "") {} {} (by decide)
  exact ⟨h.1, h.2.1, h.2.2.1, h.2.2.2 (by decide)⟩

/-! ### Trace lemmas for the order-id counter -/

theorem submitOrder_dry (env : Env) (now : Nat) (e : Exchange) (req : SubmitOrderReq)
    (hdr : resolveDryRun env.dryRun = true) :
    ∃ o, SubmitOrder env now e req =
        (Except.ok o,
         { e with
             nextOrderID := (e.nextOrderID + 1) % 2 ^ 64
             orders := insertKey e.orders e.nextOrderID o }) ∧
      o.orderID = e.nextOrderID := by
  unfold SubmitOrder
  rw [hdr]
  exact ⟨_, rfl, rfl⟩

theorem submitOrder_live (env : Env) (now : Nat) (e : Exchange) (req : SubmitOrderReq)
    (hdr : resolveDryRun env.dryRun = false) :
    SubmitOrder env now e req =
      (Except.error (ExchangeError.liveTradingUnsupported envDryRun), e) := by
  unfold SubmitOrder
  rw [hdr]
  rfl

/-- Identifiers returned over a trace are exactly the arithmetic range
starting at the current counter, as long as the counter does not hit
the `uint64` wrap. -/
theorem submittedIDs_runCalls : ∀ (cs : List Call) (e : Exchange),
    e.nextOrderID + numDrySubmits cs ≤ 2 ^ 64 →
    submittedIDs (runCalls e cs).1 = List.range' e.nextOrderID (numDrySubmits cs) := by
  intro cs
  induction cs with
  | nil =>
    intro e _
    simp [runCalls, submittedIDs, numDrySubmits]
  | cons c rest ih =>
    intro e h
    cases hop : c.op with
    | submit req =>
      cases hdr : resolveDryRun c.env.dryRun with
      | true =>
        obtain ⟨o, hstep, hoid⟩ := submitOrder_dry c.env c.now e req hdr
        have hnum : numDrySubmits (c :: rest) = numDrySubmits rest + 1 := by
          simp [numDrySubmits, List.countP_cons, hop, hdr]
        have hstep' : stepExchange e c =
            (Outcome.submitR (Except.ok o),
             { e with
                 nextOrderID := (e.nextOrderID + 1) % 2 ^ 64
                 orders := insertKey e.orders e.nextOrderID o }) := by
          simp [stepExchange, hop, hstep]
        rw [hnum] at h ⊢
        simp only [runCalls, hstep', submittedIDs, List.filterMap_cons]
        rw [List.range'_succ]
        rcases Nat.lt_or_ge (e.nextOrderID + 1) (2 ^ 64) with hlt | hge
        · have hmod : (e.nextOrderID + 1) % 2 ^ 64 = e.nextOrderID + 1 :=
            Nat.mod_eq_of_lt hlt
          have ih' := ih
            { e with
                nextOrderID := (e.nextOrderID + 1) % 2 ^ 64
                orders := insertKey e.orders e.nextOrderID o }
            (by simp only [hmod]; omega)
          simp only [hmod] at ih' ⊢
          rw [hoid]
          simp only [submittedIDs] at ih'
          rw [ih']
        · have hz : numDrySubmits rest = 0 := by omega
          have hmod : (e.nextOrderID + 1) % 2 ^ 64 = 0 := by
            have : e.nextOrderID + 1 = 2 ^ 64 := by omega
            simp [this]
          have ih' := ih
            { e with
                nextOrderID := (e.nextOrderID + 1) % 2 ^ 64
                orders := insertKey e.orders e.nextOrderID o }
            (by simp only [hmod]; omega)
          simp only [hmod, hz] at ih' ⊢
          rw [hoid]
          simp only [submittedIDs] at ih'
          rw [ih']
          simp
      | false =>
        have hnum : numDrySubmits (c :: rest) = numDrySubmits rest := by
          simp [numDrySubmits, List.countP_cons, hop, hdr]
        have hstep' : stepExchange e c =
            (Outcome.submitR (Except.error (ExchangeError.liveTradingUnsupported envDryRun)),
             e) := by
          simp [stepExchange, hop, submitOrder_live c.env c.now e req hdr]
        rw [hnum] at h ⊢
        simp only [runCalls, hstep', submittedIDs, List.filterMap_cons]
        exact ih e h
    | queryOpen sym =>
      have hnum : numDrySubmits (c :: rest) = numDrySubmits rest := by
        simp [numDrySubmits, List.countP_cons, hop]
      have hstep' : stepExchange e c = (Outcome.openR (QueryOpenOrders e sym), e) := by
        simp [stepExchange, hop]
      rw [hnum] at h ⊢
      simp only [runCalls, hstep', submittedIDs, List.filterMap_cons]
      exact ih e h
    | cancel refs =>
      have hnum : numDrySubmits (c :: rest) = numDrySubmits rest := by
        simp [numDrySubmits, List.countP_cons, hop]
      have hstep' : stepExchange e c =
          (Outcome.cancelR (CancelOrders c.now e refs).1, (CancelOrders c.now e refs).2) := by
        simp [stepExchange, hop]
      have hnext : (CancelOrders c.now e refs).2.nextOrderID = e.nextOrderID := rfl
      rw [hnum] at h ⊢
      simp only [runCalls, hstep', submittedIDs, List.filterMap_cons]
      have ih' := ih (CancelOrders c.now e refs).2 (by rw [hnext]; exact h)
      simp only [submittedIDs] at ih'
      rw [ih', hnext]
    | queryMarkets =>
      have hnum : numDrySubmits (c :: rest) = numDrySubmits rest := by
        simp [numDrySubmits, List.countP_cons, hop]
      have hstep' : stepExchange e c =
          (Outcome.marketsR (QueryMarkets c.env c.fs e).1, (QueryMarkets c.env c.fs e).2) := by
        simp [stepExchange, hop]
      have hnext : (QueryMarkets c.env c.fs e).2.nextOrderID = e.nextOrderID :=
        (queryMarkets_ledger c.env c.fs e).1
      rw [hnum] at h ⊢
      simp only [runCalls, hstep', submittedIDs, List.filterMap_cons]
      have ih' := ih (QueryMarkets c.env c.fs e).2 (by rw [hnext]; exact h)
      simp only [submittedIDs] at ih'
      rw [ih', hnext]

/-- C2: over every trace of adapter calls from a fresh exchange whose
number of dry-run submissions stays below the `uint64` wrap, the
identifiers returned by successful submissions are exactly the range
starting at 1: strictly increasing, never reused, and the first issued
identifier is 1. -/
theorem submitOrder_ids_strictly_increasing_from_one (k s p : String) (cs : List Call)
    (h : numDrySubmits cs < 2 ^ 64) :
    submittedIDs (runCalls (Exchange.New k s p) cs).1 = List.range' 1 (numDrySubmits cs) ∧
    List.Pairwise (fun a b => a < b) (submittedIDs (runCalls (Exchange.New k s p) cs).1) ∧
    (submittedIDs (runCalls (Exchange.New k s p) cs).1).Nodup ∧
    (0 < numDrySubmits cs →
      (submittedIDs (runCalls (Exchange.New k s p) cs).1).head? = some 1) := by
  have hmain := submittedIDs_runCalls cs (Exchange.New k s p) (by
    show 1 + numDrySubmits cs ≤ 2 ^ 64
    omega)
  have hnew : (Exchange.New k s p).nextOrderID = 1 := rfl
  rw [hnew] at hmain
  refine ⟨hmain, ?_, ?_, ?_⟩
  · rw [hmain]
    exact List.pairwise_lt_range' 1 _
  · rw [hmain]
    exact List.nodup_range' 1 _
  · intro hpos
    rw [hmain]
    obtain ⟨kk, hkk⟩ := Nat.exists_eq_succ_of_ne_zero (Nat.pos_iff_ne_zero.1 hpos)
    rw [hkk, List.range'_succ]
    rfl

/-- Witness for C2 at a concrete trace: two dry-run submissions with a
rejected live submission and a cancellation in between. -/
theorem submitOrder_ids_strictly_increasing_from_one_witness :
    submittedIDs (runCalls (Exchange.New "" "" "")
        [{ op := Op.submit { symbol := "A" } },
         { op := Op.cancel [{ orderID := 1 }] },
         { env := { dryRun := "false" }, op := Op.submit { symbol := "B" } },
         { op := Op.submit { symbol := "C" } }]).1 =
      List.range' 1 (numDrySubmits
        [{ op := Op.submit { symbol := "A" } },
         { op := Op.cancel [{ orderID := 1 }] },
         { env := { dryRun := "false" }, op := Op.submit { symbol := "B" } },
         { op := Op.submit { symbol := "C" } }]) ∧
    List.Pairwise (fun a b => a < b) (submittedIDs (runCalls (Exchange.New "" "" "")
        [{ op := Op.submit { symbol := "A" } },
         { op := Op.cancel [{ orderID := 1 }] },
         { env := { dryRun := "false" }, op := Op.submit { symbol := "B" } },
         { op := Op.submit { symbol := "C" } }]).1) ∧
    (submittedIDs (runCalls (Exchange.New "" "" "")
        [{ op := Op.submit { symbol := "A" } },
         { op := Op.cancel [{ orderID := 1 }] },
         { env := { dryRun := "false" }, op := Op.submit { symbol := "B" } },
         { op := Op.submit { symbol := "C" } }]).1).Nodup ∧
    (0 < numDrySubmits
        [{ op := Op.submit { symbol := "A" } },
         { op := Op.cancel [{ orderID := 1 }] },
         { env := { dryRun := "false" }, op := Op.submit { symbol := "B" } },
         { op := Op.submit { symbol := "C" } }] →
      (submittedIDs (runCalls (Exchange.New "" "" "")
        [{ op := Op.submit { symbol := "A" } },
         { op := Op.cancel [{ orderID := 1 }] },
         { env := { dryRun := "false" }, op := Op.submit { symbol := "B" } },
         { op := Op.submit { symbol := "C" } }]).1).head? = some 1) :=
  submitOrder_ids_strictly_increasing_from_one "" "" ""
    [{ op := Op.submit { symbol := "A" } },
     { op := Op.cancel [{ orderID := 1 }] },
     { env := { dryRun := "false" }, op := Op.submit { symbol := "B" } },
     { op := Op.submit { symbol := "C" } }] (by decide)

/-! ### Catalog-cache lemmas -/

theorem normalizeMarkets_length (mm : MarketMap) :
    (normalizeMarkets mm).length = mm.length := List.length_map _ _

theorem queryMarketsLoad_ok_cache (env : Env) (fs : FileSys) (e : Exchange) (m : MarketMap) :
    (queryMarketsLoad env fs e).1 = Except.ok m →
    (queryMarketsLoad env fs e).2.markets = some m ∧ 0 < m.length := by
  unfold queryMarketsLoad
  cases hl : loadMarketsFromEnv env fs with
  | error err =>
    intro h
    simp at h
  | ok ms =>
    intro h
    dsimp only at h ⊢
    simp only [Except.ok.injEq] at h
    constructor
    · exact congrArg some h
    · rw [← h, normalizeMarkets_length]
      by_cases hz : ms.length = 0
      · simp [hz, defaultExampleMarkets]
      · simp [hz]
        omega

theorem queryMarkets_cache_hit (env : Env) (fs : FileSys) (e : Exchange) (m : MarketMap)
    (hm : e.markets = some m) (hl : 0 < m.length) :
    QueryMarkets env fs e = (Except.ok m, e) := by
  unfold QueryMarkets
  rw [hm]
  simp [hl]

theorem queryMarkets_ok_cache (env : Env) (fs : FileSys) (e : Exchange) (m : MarketMap) :
    (QueryMarkets env fs e).1 = Except.ok m →
    (QueryMarkets env fs e).2.markets = some m ∧ 0 < m.length := by
  unfold QueryMarkets
  cases he : e.markets with
  | none => exact queryMarketsLoad_ok_cache env fs e m
  | some mc =>
    dsimp only
    by_cases hl : mc.length > 0
    · rw [if_pos hl]
      intro h
      simp only [Except.ok.injEq] at h
      subst h
      exact ⟨he, hl⟩
    · rw [if_neg hl]
      exact queryMarketsLoad_ok_cache env fs e m

theorem stepExchange_markets_cached (e : Exchange) (c : Call) (m : MarketMap)
    (hm : e.markets = some m) (hl : 0 < m.length) :
    (stepExchange e c).2.markets = some m := by
  cases hop : c.op with
  | submit req =>
    simp only [stepExchange, hop]
    rw [submitOrder_markets, hm]
  | queryOpen sym =>
    simp only [stepExchange, hop]
    exact hm
  | cancel refs =>
    simp only [stepExchange, hop]
    rw [cancelOrders_markets, hm]
  | queryMarkets =>
    simp only [stepExchange, hop]
    rw [queryMarkets_cache_hit c.env c.fs e m hm hl]
    exact hm

theorem runCalls_markets_cached : ∀ (cs : List Call) (e : Exchange) (m : MarketMap),
    e.markets = some m → 0 < m.length → (runCalls e cs).2.markets = some m := by
  intro cs
  induction cs with
  | nil => intro e m hm _; exact hm
  | cons c rest ih =>
    intro e m hm hl
    simp only [runCalls]
    exact ih (stepExchange e c).2 m (stepExchange_markets_cached e c m hm hl) hl

/-- C8: once a `QueryMarkets` call has succeeded, every later
`QueryMarkets` call — after any further sequence of adapter calls and
under any changed environment and file system — returns the identical
catalog and leaves the state unchanged. -/
theorem queryMarkets_cached_after_success (env : Env) (fs : FileSys) (e : Exchange)
    (m : MarketMap) (h : (QueryMarkets env fs e).1 = Except.ok m) (cs : List Call)
    (env' : Env) (fs' : FileSys) :
    QueryMarkets env' fs' (runCalls (QueryMarkets env fs e).2 cs).2 =
      (Except.ok m, (runCalls (QueryMarkets env fs e).2 cs).2) := by
  obtain ⟨hc, hl⟩ := queryMarkets_ok_cache env fs e m h
  exact queryMarkets_cache_hit env' fs' _ m
    (runCalls_markets_cached cs (QueryMarkets env fs e).2 m hc hl) hl

/-- Witness for C8: after the built-in catalog is loaded once, a later
query under a changed environment (an inline catalog that would decode
differently) still returns the built-in catalog. -/
theorem queryMarkets_cached_after_success_witness :
    QueryMarkets { marketsJSON := some (some (Json.arr [])) } {}
        (runCalls (QueryMarkets {} {} (Exchange.New "" "" "")).2
          [{ op := Op.submit { symbol := "A" } }]).2 =
      (Except.ok (normalizeMarkets defaultExampleMarkets),
       (runCalls (QueryMarkets {} {} (Exchange.New "" "" "")).2
          [{ op := Op.submit { symbol := "A" } }]).2) :=
  queryMarkets_cached_after_success {} {} (Exchange.New "" "" "")
    (normalizeMarkets defaultExampleMarkets) rfl
    [{ op := Op.submit { symbol := "A" } }] { marketsJSON := some (some (Json.arr [])) } {}

/-! ### Decoding of the mapping-shape payload with an empty symbol (C4) -/

/-- C4 counterexample: the catalog JSON consisting of one mapping
entry keyed "Y" whose Market record carries an empty symbol field and
baseCurrency "Y" is accepted by the symbol-keyed mapping shape — it
unmarshals to a non-empty map — so catalog loading succeeds instead of
failing with a decode error. -/
theorem decodeMarketsJSON_mapping_shape_accepts_empty_symbol :
    loadMarketsFromEnv
        { marketsJSON := some (some (Json.obj [("Y", Json.obj
            [("symbol", Json.str ""), ("baseCurrency", Json.str "Y")])])) } {} =
      Except.ok [("Y", { symbol := "", baseCurrency := "Y" })] := rfl

/-- C4 amended: the mapping entry keyed "Y" with an empty symbol field
decodes successfully via the mapping shape (the empty-symbol check
applies only to the array shape), and a catalog query then backfills
the symbol from the map key and stamps the venue identity. -/
theorem queryMarkets_empty_symbol_backfilled_from_key :
    (QueryMarkets
        { marketsJSON := some (some (Json.obj [("Y", Json.obj
            [("symbol", Json.str ""), ("baseCurrency", Json.str "Y")])])) } {}
        (Exchange.New "" "" "")).1 =
      Except.ok [("Y",
        { exchange := exchangePolymarket, symbol := "Y", baseCurrency := "Y" })] := rfl

/-! ### Decoding policy (C5) -/

theorem buildBySymbol_err : ∀ (arr : List Market) (acc : MarketMap),
    (∃ m ∈ arr, m.symbol = "") →
    buildBySymbol arr acc = Except.error (ExchangeError.decodeError msgEmptySymbol) := by
  intro arr
  induction arr with
  | nil =>
    intro acc h
    obtain ⟨m, hm, _⟩ := h
    cases hm
  | cons m rest ih =>
    intro acc h
    by_cases hm : m.symbol = ""
    · simp [buildBySymbol, hm]
    · simp only [buildBySymbol, if_neg hm]
      obtain ⟨m', hm', hs⟩ := h
      rcases List.mem_cons.1 hm' with he | he
      · exact absurd (he ▸ hs) hm
      · exact ih _ ⟨m', he, hs⟩

theorem buildBySymbol_ok : ∀ (arr : List Market) (acc : MarketMap),
    (∀ m ∈ arr, m.symbol ≠ "") →
    ∃ mm, buildBySymbol arr acc = Except.ok mm ∧
      (∀ p ∈ mm, p ∈ acc ∨ ((p.2) ∈ arr ∧ (p.2).symbol = p.1)) ∧
      (∀ s, (lookupKey acc s).isSome → (lookupKey mm s).isSome) ∧
      (∀ m ∈ arr, (lookupKey mm m.symbol).isSome) := by
  intro arr
  induction arr with
  | nil =>
    intro acc _
    exact ⟨acc, rfl, fun p hp => Or.inl hp, fun s h => h,
      fun m hm => absurd hm (List.not_mem_nil m)⟩
  | cons m rest ih =>
    intro acc hall
    have hm : m.symbol ≠ "" := hall m (List.mem_cons_self _ _)
    have hrest : ∀ m' ∈ rest, m'.symbol ≠ "" :=
      fun m' h => hall m' (List.mem_cons_of_mem _ h)
    obtain ⟨mm, heq, hmem, hmono, hlook⟩ := ih (insertKey acc m.symbol m) hrest
    refine ⟨mm, ?_, ?_, ?_, ?_⟩
    · simp only [buildBySymbol, if_neg hm]
      exact heq
    · intro p hp
      rcases hmem p hp with h | h
      · rcases mem_insertKey h with he | he
        · rw [he]
          exact Or.inr ⟨List.mem_cons_self _ _, rfl⟩
        · exact Or.inl he
      · exact Or.inr ⟨List.mem_cons_of_mem _ h.1, h.2⟩
    · intro s hs
      exact hmono s (lookupKey_insertKey_isSome _ _ _ _ hs)
    · intro m' hm'
      rcases List.mem_cons.1 hm' with he | he
      · have hself : (lookupKey (insertKey acc m.symbol m) m.symbol).isSome := by
          rw [lookupKey_insertKey]
          simp
        rw [he]
        exact hmono m.symbol hself
      · exact hlook m' he

/-- C5: decoding first attempts the symbol-keyed mapping shape and
accepts it exactly when it unmarshals to a non-empty map; otherwise it
attempts the array-of-Market shape, failing with the decode error of
the first empty-symbol record when one exists, and otherwise building
the map keyed by each record's symbol; on the array example with
symbol "X" the loaded catalog carries key "X" with baseCurrency "X"
and quoteCurrency "USDC". -/
theorem decodeMarketsJSON_policy (j : Json) :
    (∀ mm, unmarshalMarketMap j = some mm → 0 < mm.length →
      decodeMarketsValue j = Except.ok mm) ∧
    ((unmarshalMarketMap j = none ∨ unmarshalMarketMap j = some []) →
      ∀ arr, unmarshalMarketArr j = some arr →
        ((∃ m ∈ arr, m.symbol = "") →
          decodeMarketsValue j = Except.error (ExchangeError.decodeError msgEmptySymbol)) ∧
        ((∀ m ∈ arr, m.symbol ≠ "") →
          ∃ mm, decodeMarketsValue j = Except.ok mm ∧
            (∀ p ∈ mm, (p.2) ∈ arr ∧ (p.2).symbol = p.1) ∧
            (∀ m ∈ arr, (lookupKey mm m.symbol).isSome))) ∧
    decodeMarketsJSON (some (Json.arr [Json.obj [("symbol", Json.str "X"),
        ("baseCurrency", Json.str "X"), ("quoteCurrency", Json.str "USDC")]])) =
      Except.ok [("X", { symbol := "X", baseCurrency := "X", quoteCurrency := "USDC" })] := by
  refine ⟨?_, ?_, rfl⟩
  · intro mm h hl
    unfold decodeMarketsValue
    rw [h]
    simp [hl]
  · intro hmap arr harr
    have harrEq : decodeMarketsValue j = buildBySymbol arr [] := by
      unfold decodeMarketsValue decodeMarketsArr
      rcases hmap with h | h
      · rw [h, harr]
      · rw [h, harr]
        simp
    constructor
    · intro hex
      rw [harrEq]
      exact buildBySymbol_err arr [] hex
    · intro hall
      obtain ⟨mm, heq, hmem, _, hlook⟩ := buildBySymbol_ok arr [] hall
      refine ⟨mm, by rw [harrEq]; exact heq, ?_, hlook⟩
      intro p hp
      rcases hmem p hp with h | h
      · cases h
      · exact h

/-- Witness for C5: the mapping branch accepts a concrete one-entry
mapping payload; on a concrete two-record array whose second record
has an empty symbol, decoding fails with the empty-symbol decode
error. -/
theorem decodeMarketsJSON_policy_witness :
    decodeMarketsValue (Json.obj [("A", Json.obj [("symbol", Json.str "A")])]) =
      Except.ok [("A", { symbol := "A" })] ∧
    decodeMarketsValue (Json.arr [Json.obj [("symbol", Json.str "A")], Json.obj []]) =
      Except.error (ExchangeError.decodeError msgEmptySymbol) :=
  ⟨(decodeMarketsJSON_policy (Json.obj [("A", Json.obj [("symbol", Json.str "A")])])).1
     [("A", { symbol := "A" })] rfl (by decide),
   ((decodeMarketsJSON_policy
        (Json.arr [Json.obj [("symbol", Json.str "A")], Json.obj []])).2.1
      (Or.inl rfl) [{ symbol := "A" }, {}] rfl).1
     ⟨{}, List.mem_cons_of_mem _ (List.mem_cons_self _ _), rfl⟩⟩

end Polymarket

